import Mathlib

/-!
Verification development for the invoice-extraction pipeline
(candidate assembly, wrapped-row merging, fuzzy deduplication,
duplicate-group detection and ILP reconciliation).

The Python sources are shallowly embedded:
* machine floats are idealised as exact rationals (`ℚ`);
* `round(x, 2)` is modelled as round-half-to-even at two decimals;
* Python exceptions that the claims care about (ZeroDivisionError in
  the deduplicator) are made explicit with `Except`;
* the two external numeric collaborators are modelled at their
  contract: the CBC solver behind PuLP as an exact finite optimiser
  over subset assignments, and rapidfuzz's token-set similarity as an
  explicit function parameter (any such scorer returns 100 on two
  identical strings).
Everything else (regex scanning, string normalisation, grouping,
merging, selection) is translated operation by operation from the
source files `ocr_cells.py`, `candidates.py`, `dedupe.py`,
`text_based_extraction.py` and `reconcile.py`.
-/

/-! ### Small Python-style string helpers -/

/-- Python `str.strip()` on a character list: drop whitespace at both ends. -/
def pyStripChars (cs : List Char) : List Char :=
  ((cs.dropWhile Char.isWhitespace).reverse.dropWhile Char.isWhitespace).reverse

/-- Python `str.strip()`. -/
def pyStrip (s : String) : String := ⟨pyStripChars s.data⟩

/-- Python `str.lower()` (ASCII case mapping suffices for the data here). -/
def pyLower (s : String) : String := ⟨s.data.map Char.toLower⟩

/-- A regex word character (`\w`): alphanumeric or underscore. -/
def isWordCharRe (c : Char) : Bool := c.isAlphanum || c = '_'

/-- Python `str.split()` (split on whitespace runs, dropping empty pieces),
on character lists. -/
def splitWsAux : List Char → List Char → List (List Char)
  | [], acc => if acc.isEmpty then [] else [acc.reverse]
  | c :: rest, acc =>
      if c.isWhitespace then
        if acc.isEmpty then splitWsAux rest []
        else acc.reverse :: splitWsAux rest []
      else splitWsAux rest (c :: acc)

/-- Python `str.split()`. -/
def splitWs (cs : List Char) : List (List Char) := splitWsAux cs []

/-- Python `' '.join(...)` on character lists. -/
def joinSpaceChars : List (List Char) → List Char
  | [] => []
  | [w] => w
  | w :: rest => w ++ ' ' :: joinSpaceChars rest

/-- Substring test, Python `sub in s` for non-empty `sub`. -/
def startsWithCh : List Char → List Char → Bool
  | [], _ => true
  | _ :: _, [] => false
  | a :: as, b :: bs => a = b && startsWithCh as bs

/-- Substring occurrence anywhere in the haystack. -/
def containsSub (sub : List Char) : List Char → Bool
  | [] => startsWithCh sub []
  | l@(_ :: rest) => startsWithCh sub l || containsSub sub rest

/-- Python `abs` on a rational, written so that kernel reduction works. -/
def qabs (x : ℚ) : ℚ := if x < 0 then -x else x

/-- Python `round` to an integer: round half to even (used by `round(x, 2)`). -/
def roundHalfEven (x : ℚ) : ℤ :=
  let f := ⌊x⌋
  let r := x - (f : ℚ)
  if r < 1/2 then f
  else if 1/2 < r then f + 1
  else if f % 2 = 0 then f else f + 1

/-- Python `round(x, 2)`, idealised on exact rationals. -/
def pyRound2 (x : ℚ) : ℚ := (roundHalfEven (100 * x) : ℚ) / 100

/-! ### `ocr_cells.extract_amount_from_cell_text`

The Python function is a pipeline of regex operations; each regex is
translated to an explicit character-list scanner with the exact
backtracking behaviour of Python `re` on that pattern. -/

/-- `re.search(r'\bDr\b', text, re.IGNORECASE)`: an occurrence of `dr`
(case-insensitive) bounded by non-word characters or the string ends.
The first argument carries the character preceding the current scan point. -/
def hasWordDr : Option Char → List Char → Bool
  | prev, a :: b :: rest =>
      if (a.toLower = 'd' && b.toLower = 'r')
          && (match prev with | none => true | some p => !isWordCharRe p)
          && (match rest with | [] => true | c :: _ => !isWordCharRe c)
      then true
      else hasWordDr (some a) (b :: rest)
  | _, _ => false

/-- Characters removed by
`re.sub(r'[₹$€£¥INR USD EUR GBP JPY Rs\s]', '', text, flags=re.IGNORECASE)`:
the five currency symbols, whitespace, and (case-insensitively) the letters
appearing in the class, namely i n r u s d e g b p j y. -/
def removedByCleanup (c : Char) : Bool :=
  c = '₹' || c = '$' || c = '€' || c = '£' || c = '¥' || c.isWhitespace ||
  (let l := c.toLower;
    l = 'i' || l = 'n' || l = 'r' || l = 'u' || l = 's' || l = 'd' ||
    l = 'e' || l = 'g' || l = 'b' || l = 'p' || l = 'j' || l = 'y')

/-- Character class `[0-9,\.]` of the parenthese-negative pattern. -/
def parenClass (c : Char) : Bool := c.isDigit || c = ',' || c = '.'

/-- `re.search(r'\(([0-9,\.]+)\)', cleaned)`: leftmost `(`, a non-empty greedy
run of digits/commas/dots, then `)`; returns the captured group. -/
def findParen : List Char → Option (List Char)
  | [] => none
  | c :: rest =>
      if c = '(' then
        let run := rest.takeWhile parenClass
        let after := rest.drop run.length
        if !run.isEmpty && after.head? = some ')' then some run
        else findParen rest
      else findParen rest

/-- One iteration of the greedy star `(?:,?[0-9]{3})*`: an optional comma
followed by exactly three digits; collects all iterations. -/
def starGroups : List Char → List Char × List Char
  | a :: b :: c :: d :: rest =>
      if a = ',' && b.isDigit && c.isDigit && d.isDigit then
        let (m, r) := starGroups rest
        (a :: b :: c :: d :: m, r)
      else if a.isDigit && b.isDigit && c.isDigit then
        let (m, r) := starGroups (d :: rest)
        (a :: b :: c :: m, r)
      else ([], a :: b :: c :: d :: rest)
  | [a, b, c] =>
      if a.isDigit && b.isDigit && c.isDigit then ([a, b, c], [])
      else ([], [a, b, c])
  | cs => ([], cs)

/-- The optional fraction `(?:\.[0-9]+)?`: a dot followed by a non-empty
greedy digit run, or nothing. -/
def fracPart (cs : List Char) : List Char × List Char :=
  match cs with
  | c :: rest =>
      if c = '.' then
        let ds := rest.takeWhile Char.isDigit
        if ds.isEmpty then ([], cs) else (c :: ds, rest.drop ds.length)
      else ([], cs)
  | [] => ([], [])

/-- Attempt of the full pattern `-?[0-9]{1,3}(?:,?[0-9]{3})*(?:\.[0-9]+)?`
anchored at the current position, following Python `re`'s greedy
preferences (no global backtracking is ever needed for this pattern). -/
def matchNumCore (cs : List Char) : Option (List Char × List Char) :=
  let d := (cs.takeWhile Char.isDigit).take 3
  if d.isEmpty then none
  else
    let r1 := cs.drop d.length
    let (s, r2) := starGroups r1
    let (f, r3) := fracPart r2
    some (d ++ s ++ f, r3)

/-- The pattern with its optional leading minus. -/
def matchNumAt (cs : List Char) : Option (List Char × List Char) :=
  match cs with
  | c :: rest =>
      if c = '-' then
        match matchNumCore rest with
        | some (m, r) => some (c :: m, r)
        | none => none
      else matchNumCore (c :: rest)
  | [] => none

/-- `re.findall` of the numeric pattern: scan left to right, restarting
after each match (every match consumes at least one character, so fuel
equal to the input length is exact, never short). -/
def findAllNumAux : Nat → List Char → List (List Char)
  | 0, _ => []
  | _ + 1, [] => []
  | n + 1, c :: rest =>
      match matchNumAt (c :: rest) with
      | some (m, r) => m :: findAllNumAux n r
      | none => findAllNumAux n rest

/-- All matches of the numeric pattern in order. -/
def findAllNum (cs : List Char) : List (List Char) :=
  findAllNumAux cs.length cs

/-- Decimal digits to a natural number. -/
def digitsToNat (cs : List Char) : Nat :=
  cs.foldl (fun n c => 10 * n + (c.toNat - '0'.toNat)) 0

/-- Python `float` on a comma-free match of the numeric pattern
(`[-]digits[.digits]`), idealised as an exact rational. -/
def parseNumQ (cs : List Char) : ℚ :=
  let neg := cs.head? = some '-'
  let cs1 := if neg then cs.tail else cs
  let intPart := cs1.takeWhile Char.isDigit
  let rest := cs1.drop intPart.length
  let frac := if rest.head? = some '.' then rest.tail else []
  let q : ℚ := (digitsToNat intPart : ℚ) + (digitsToNat frac : ℚ) / (10 ^ frac.length)
  if neg then -q else q

/-- `ocr_cells.extract_amount_from_cell_text`: debit/credit detection, the
currency-character cleanup, the parenthesised-negative capture, `findall`
of the numeric pattern, parse of the last match, then the sign fixups.
(The source also computes `is_credit` but never uses it.) -/
def extract_amount_from_cell_text (s : String) : Option ℚ :=
  let cs := s.data
  if cs.isEmpty then none
  else
    let isDebit := hasWordDr none cs
    let cleaned := cs.filter (fun c => !removedByCleanup c)
    let (isNeg, cleaned2) :=
      match findParen cleaned with
      | some run => (true, run)
      | none => (false, cleaned)
    match (findAllNum cleaned2).getLast? with
    | none => none
    | some m =>
        let a := parseNumQ (m.filter (fun c => c ≠ ','))
        let a := if isNeg then -qabs a else a
        let a := if isDebit && a > 0 then -a else a
        some a

attribute [simp] pyStripChars pyStrip pyLower isWordCharRe splitWsAux splitWs
  startsWithCh containsSub qabs roundHalfEven pyRound2 hasWordDr
  removedByCleanup parenClass findParen starGroups fracPart matchNumCore
  matchNumAt findAllNumAux findAllNum digitsToNat parseNumQ

/-- Claim C3 (divergence witness): the first three rows of the fixed table
and the unparsable row behave as the spec says, but `"1234.56 Dr"` parses
to −4.56, not −1234.56: the numeric regex
`-?[0-9]{1,3}(?:,?[0-9]{3})*(?:\.[0-9]+)?` cannot match a comma-less
four-digit number in full (it finds `"123"` and then `"4.56"`, and the
code keeps the last match). -/
theorem claim_C3_amount_parsing_table :
    extract_amount_from_cell_text "(1,200.00)" = some (-1200) ∧
    extract_amount_from_cell_text "₹1,234.50" = some (1234.5 : ℚ) ∧
    extract_amount_from_cell_text "500.75 Cr" = some (500.75 : ℚ) ∧
    extract_amount_from_cell_text "No amount here" = none ∧
    extract_amount_from_cell_text "1234.56 Dr" = some (-4.56 : ℚ) ∧
    (-4.56 : ℚ) ≠ -1234.56 := by
  refine ⟨?_, ?_, ?_, ?_, ?_, by norm_num⟩
  · simp [extract_amount_from_cell_text, Char.toLower]
  · simp [extract_amount_from_cell_text, Char.toLower]
    norm_num
  · simp [extract_amount_from_cell_text, Char.toLower]
    norm_num
  · simp [extract_amount_from_cell_text, Char.toLower]
  · simp [extract_amount_from_cell_text, Char.toLower]
    norm_num

/-! ### Data model

The candidate dictionaries flowing through the pipeline.  `bbox` is a
pixel rectangle `(x1, y1, x2, y2)`; `amount` is `none` when no monetary
value was recognised; `merged_ids` is only set by the deduplicator. -/

/-- An OCR token as supplied by the upstream OCR collaborator
(`{text, conf, left, top, width, height}`). -/
structure Token where
  text : String
  conf : ℚ
  left : ℤ
  top : ℤ
  width : ℤ
  height : ℤ
deriving DecidableEq, Repr

/-- A candidate line item (the Python dict built in `candidates.py` /
`text_based_extraction.py`). -/
structure Candidate where
  id : ℤ
  page : ℤ
  bbox : Option (ℤ × ℤ × ℤ × ℤ)
  raw_cells : List String
  desc : String
  amount : Option ℚ
  conf : ℚ
  merged_ids : Option (List ℤ)
deriving DecidableEq, Repr

/-! ### `candidates.merge_wrapped_rows` and its helpers -/

/-- `candidates._is_wrapped_row`: the candidate continues the parent iff it
has no amount, a description of length at least 3, the same page, both
bounding boxes present, a vertical gap (candidate top minus parent bottom)
in `[-5, 10]`, and a left-edge offset of at most 20 pixels. -/
def _is_wrapped_row (parent cand : Candidate) : Bool :=
  match cand.amount with
  | some _ => false
  | none =>
    if cand.desc.length < 3 then false
    else if parent.page ≠ cand.page then false
    else
      match parent.bbox, cand.bbox with
      | some (px1, _, _, py2), some (cx1, cy1, _, _) =>
          let gap := cy1 - py2
          if gap < -5 || gap > 10 then false
          else if (if cx1 - px1 < 0 then px1 - cx1 else cx1 - px1) > 20 then false
          else true
      | _, _ => false

/-- `candidates._merge_two_candidates`: parent absorbs the wrapped row.
Description is space-concatenated, the bounding box is widened (parent top
kept, wrapped bottom taken), raw cells are appended, and the confidence
becomes the two-way average when both confidences are positive. -/
def _merge_two_candidates (parent wrapped : Candidate) : Candidate :=
  let desc :=
    if wrapped.desc ≠ "" then
      (if parent.desc ≠ "" then parent.desc ++ " " ++ wrapped.desc else wrapped.desc)
    else parent.desc
  let bbox :=
    match parent.bbox, wrapped.bbox with
    | some (px1, py1, px2, _), some (wx1, _, wx2, wy2) =>
        some (min px1 wx1, py1, max px2 wx2, wy2)
    | pb, _ => pb
  let conf :=
    if parent.conf > 0 && wrapped.conf > 0 then (parent.conf + wrapped.conf) / 2
    else parent.conf
  { parent with
      desc := desc, bbox := bbox,
      raw_cells := parent.raw_cells ++ wrapped.raw_cells, conf := conf }

/-- The inner `while` loop of `merge_wrapped_rows`: absorb consecutive
wrapped rows into the accumulated candidate, stopping at the first
non-wrapped one. -/
def absorbLoop : Candidate → List Candidate → Candidate × List Candidate
  | m, [] => (m, [])
  | m, c :: rest =>
      if _is_wrapped_row m c then absorbLoop (_merge_two_candidates m c) rest
      else (m, c :: rest)

theorem absorbLoop_snd_length_le (m : Candidate) (l : List Candidate) :
    (absorbLoop m l).2.length ≤ l.length := by
  induction l generalizing m with
  | nil => simp [absorbLoop]
  | cons c rest ih =>
      simp only [absorbLoop]
      split
      · exact le_trans (ih _) (Nat.le_succ _)
      · simp

/-- `candidates.merge_wrapped_rows`: walk the list, letting each retained
candidate absorb the maximal run of wrapped rows that follows it. -/
def merge_wrapped_rows : List Candidate → List Candidate
  | [] => []
  | c :: rest =>
      let p := absorbLoop c rest
      p.1 :: merge_wrapped_rows p.2
termination_by l => l.length
decreasing_by
  simpa using Nat.lt_succ_of_le (absorbLoop_snd_length_le c rest)

theorem merge_wrapped_rows_nil : merge_wrapped_rows [] = [] := by
  rw [merge_wrapped_rows]

theorem merge_wrapped_rows_cons (c : Candidate) (rest : List Candidate) :
    merge_wrapped_rows (c :: rest) =
      (absorbLoop c rest).1 :: merge_wrapped_rows (absorbLoop c rest).2 := by
  rw [merge_wrapped_rows]

theorem merge_wrapped_rows_eq_nil_iff (l : List Candidate) :
    merge_wrapped_rows l = [] ↔ l = [] := by
  cases l with
  | nil => simp [merge_wrapped_rows_nil]
  | cons c rest => simp [merge_wrapped_rows_cons]

/-- If the inner loop ends with nothing left over, it folded the whole
tail into the seed with `_merge_two_candidates`. -/
theorem absorbLoop_eq_foldl_of_nil (rest : List Candidate) :
    ∀ (c m : Candidate), absorbLoop c rest = (m, []) →
      m = rest.foldl _merge_two_candidates c := by
  induction rest with
  | nil =>
      intro c m h
      simp only [absorbLoop, Prod.mk.injEq] at h
      simp [h.1]
  | cons d rest2 ih =>
      intro c m h
      simp only [absorbLoop] at h
      split at h
      · rw [List.foldl_cons]
        exact ih _ m h
      · exact absurd (congrArg Prod.snd h) (by simp)

/-- Claim C7: for every candidate list in which no candidate satisfies the
wrapped-row conditions with respect to its predecessor (amount `None`,
description length at least 3, same page, vertical gap in `[-5, 10]`,
left-edge offset at most 20 — i.e. `_is_wrapped_row` is false on every
adjacent pair), `merge_wrapped_rows` returns the same candidates in the
same order with the same ids. -/
theorem claim_C7_merge_wrapped_rows_identity (l : List Candidate)
    (h : ∀ p n : Candidate, (p, n) ∈ l.zip l.tail → _is_wrapped_row p n = false) :
    merge_wrapped_rows l = l := by
  induction l with
  | nil => exact merge_wrapped_rows_nil
  | cons c rest ih =>
      cases rest with
      | nil => simp [merge_wrapped_rows_cons, absorbLoop, merge_wrapped_rows_nil]
      | cons d rest2 =>
          have hcd : _is_wrapped_row c d = false := h c d (by simp)
          have habs : absorbLoop c (d :: rest2) = (c, d :: rest2) := by
            simp [absorbLoop, hcd]
          rw [merge_wrapped_rows_cons, habs]
          have htail : merge_wrapped_rows (d :: rest2) = d :: rest2 := by
            apply ih
            intro p n hpn
            have h2 : (p, n) ∈ (d :: rest2).zip rest2 := by simpa using hpn
            apply h p n
            have h3 : (c :: d :: rest2).tail = d :: rest2 := rfl
            rw [h3, List.zip_cons_cons]
            exact List.mem_cons_of_mem _ h2
          rw [htail]

/-- Witness for C7: a two-candidate list where both candidates carry an
amount (so neither is a wrapped row) is returned unchanged. -/
theorem claim_C7_witness :
    merge_wrapped_rows
      [⟨1, 1, some (10, 10, 390, 30), [], "Item 1", some 1234.5, 92, none⟩,
       ⟨3, 1, some (10, 60, 390, 80), [], "Item 2", some 500, 90, none⟩] =
      [⟨1, 1, some (10, 10, 390, 30), [], "Item 1", some 1234.5, 92, none⟩,
       ⟨3, 1, some (10, 60, 390, 80), [], "Item 2", some 500, 90, none⟩] := by
  apply claim_C7_merge_wrapped_rows_identity
  intro p n hpn
  simp only [List.tail_cons, List.zip_cons_cons, List.zip_nil_right,
    List.mem_singleton, Prod.mk.injEq] at hpn
  obtain ⟨hp, hn⟩ := hpn
  subst hp
  subst hn
  simp [_is_wrapped_row]

/-- Confidence of a two-way merge, stated over plain rationals. -/
def confStep (a : ℚ) (w : ℚ) : ℚ := if 0 < a ∧ 0 < w then (a + w) / 2 else a

theorem merge_two_conf (p w : Candidate) :
    (_merge_two_candidates p w).conf = confStep p.conf w.conf := by
  simp [_merge_two_candidates, confStep]

theorem foldl_merge_conf (rest : List Candidate) :
    ∀ c : Candidate, (rest.foldl _merge_two_candidates c).conf =
      rest.foldl (fun a x => confStep a x.conf) c.conf := by
  induction rest with
  | nil => intro c; rfl
  | cons d rest2 ih =>
      intro c
      rw [List.foldl_cons, List.foldl_cons, ih, merge_two_conf]

/-- Claim C8 (amended): when `merge_wrapped_rows` collapses a whole chain
`c :: rest` into a single candidate, the resulting confidence is the
left-nested repeated two-way average of the confidences (each step
averaging only when both sides are positive), not the arithmetic mean of
all of them. -/
theorem claim_C8_chain_confidence (c : Candidate) (rest : List Candidate)
    (m : Candidate) (h : merge_wrapped_rows (c :: rest) = [m]) :
    m.conf = rest.foldl (fun a x => confStep a x.conf) c.conf := by
  rw [merge_wrapped_rows_cons] at h
  obtain ⟨h1, h2⟩ := List.cons_eq_cons.mp h
  rw [merge_wrapped_rows_eq_nil_iff] at h2
  have hm : m = rest.foldl _merge_two_candidates c := by
    apply absorbLoop_eq_foldl_of_nil rest c m
    rw [← h1, ← h2]
  rw [hm, foldl_merge_conf]

/-- Witness for C8 (amended): a parent of confidence 100 absorbing one
wrapped row of confidence 80 ends with confidence 90. -/
theorem claim_C8_witness :
    (merge_wrapped_rows
      [⟨1, 1, some (0, 0, 100, 10), [], "item one", some 5, 100, none⟩,
       ⟨2, 1, some (0, 12, 100, 20), [], "contd", none, 80, none⟩]).map Candidate.conf =
      [90] := by
  have h : merge_wrapped_rows
      [⟨1, 1, some (0, 0, 100, 10), [], "item one", some 5, 100, none⟩,
       ⟨2, 1, some (0, 12, 100, 20), [], "contd", none, 80, none⟩] =
      [_merge_two_candidates
        ⟨1, 1, some (0, 0, 100, 10), [], "item one", some 5, 100, none⟩
        ⟨2, 1, some (0, 12, 100, 20), [], "contd", none, 80, none⟩] := by
    rw [merge_wrapped_rows_cons]
    norm_num [absorbLoop, _is_wrapped_row, merge_wrapped_rows_nil,
      merge_wrapped_rows_cons, String.length]
  have := claim_C8_chain_confidence _ _ _ h
  rw [h]
  simp only [List.map_cons, List.map_nil, this, List.foldl_cons, List.foldl_nil, confStep]
  norm_num

/-- Counterexample to C8 as stated: a chain of one parent (confidence 100)
and two wrapped rows (confidences 100 and 40) collapses to a single
candidate of confidence `((100+100)/2+40)/2 = 70`, while the arithmetic
mean of the three confidences is 80. -/
theorem claim_C8_counterexample :
    (merge_wrapped_rows
      [⟨1, 1, some (0, 0, 100, 10), [], "item one", some 5, 100, none⟩,
       ⟨2, 1, some (0, 12, 100, 20), [], "contd", none, 100, none⟩,
       ⟨3, 1, some (0, 22, 100, 30), [], "again", none, 40, none⟩]).map Candidate.conf =
      [70] ∧ ((100 : ℚ) + 100 + 40) / 3 ≠ 70 := by
  constructor
  · rw [merge_wrapped_rows_cons]
    norm_num [absorbLoop, _is_wrapped_row, _merge_two_candidates,
      merge_wrapped_rows_nil, merge_wrapped_rows_cons, String.length]
  · norm_num

/-! ### `text_based_extraction.py` -/

/-- Stable insertion of an element after every list member that is
strictly smaller (Python `sorted` keeps the original order of equal
keys; the inserted element comes from earlier in the original list). -/
def insertStable (lt : α → α → Bool) (x : α) : List α → List α
  | [] => [x]
  | y :: ys => if lt y x then y :: insertStable lt x ys else x :: y :: ys

/-- Stable sort by a strict comparison, as Python `sorted`/`list.sort`. -/
def sortStable (lt : α → α → Bool) : List α → List α
  | [] => []
  | x :: xs => insertStable lt x (sortStable lt xs)

/-- `text_based_extraction.cluster_tokens_into_rows`: sort tokens by top,
then start a new row whenever a token is more than `y_threshold` below the
first token of the current row; each row is sorted left to right. -/
def clusterAux (yThresh : ℤ) (curY : ℤ) (curRow : List Token) :
    List Token → List (List Token)
  | [] => [sortStable (fun a b => a.left < b.left) curRow]
  | t :: rest =>
      if (if t.top - curY < 0 then curY - t.top else t.top - curY) ≤ yThresh then
        clusterAux yThresh curY (curRow ++ [t]) rest
      else
        sortStable (fun a b => a.left < b.left) curRow ::
          clusterAux yThresh t.top [t] rest

/-- `cluster_tokens_into_rows`. -/
def cluster_tokens_into_rows (tokens : List Token) (yThresh : ℤ) :
    List (List Token) :=
  match sortStable (fun a b => a.top < b.top) tokens with
  | [] => []
  | t :: rest => clusterAux yThresh t.top [t] rest

/-- The non-empty stripped texts of a row with their confidences
(the loop over `row_tokens` skipping empty text). -/
def rowStripped (row : List Token) : List (String × ℚ) :=
  row.filterMap (fun t =>
    let s := pyStripChars t.text.data
    if s.isEmpty then none else some (⟨s⟩, t.conf))

/-- The parsed amounts of a row, in token order
(`amount_candidates`, keeping only the amount field that is used). -/
def rowAmounts (row : List Token) : List ℚ :=
  (rowStripped row).filterMap (fun p => extract_amount_from_cell_text p.1)

/-- The description fragments of a row (stripped texts that do not parse
as an amount). -/
def rowDescTokens (row : List Token) : List String :=
  ((rowStripped row).filter
    (fun p => extract_amount_from_cell_text p.1 = none)).map (fun p => p.1)

/-- Python `' '.join(...)`. -/
def joinSpace : List String → String
  | [] => ""
  | [s] => s
  | s :: rest => s ++ " " ++ joinSpace rest

/-- A candidate as produced by `extract_line_item_from_row`, before the
`id`/`page` fields are attached by the caller. -/
structure RawItem where
  desc : String
  amount : ℚ
  conf : ℚ
  bbox : ℤ × ℤ × ℤ × ℤ
  raw_cells : List String
deriving DecidableEq, Repr

/-- Minimum of a list of integers below a first element. -/
def intListMin (x : ℤ) (l : List ℤ) : ℤ := l.foldl min x

/-- Maximum of a list of integers above a first element. -/
def intListMax (x : ℤ) (l : List ℤ) : ℤ := l.foldl max x

/-- `text_based_extraction.extract_line_item_from_row`: split the row into
description and amount tokens, pick the right-most amount strictly greater
than 0.01 (falling back to the last amount when none exceeds 0.01), average
the confidence over all tokens of the row, and take the bounding box of the
whole row. -/
def extract_line_item_from_row (row : List Token) : Option RawItem :=
  match row with
  | [] => none
  | t0 :: rest =>
      let amounts := rowAmounts (t0 :: rest)
      match amounts.getLast? with
      | none => none
      | some lastAmt =>
          let best := ((amounts.filter (fun a => a > 1/100)).getLast?).getD lastAmt
          some
            { desc := joinSpace (rowDescTokens (t0 :: rest)),
              amount := best,
              conf := ((t0 :: rest).map Token.conf).sum / ((t0 :: rest).length : ℚ),
              bbox :=
                (intListMin t0.left (rest.map Token.left),
                 intListMin t0.top (rest.map Token.top),
                 intListMax (t0.left + t0.width)
                   (rest.map (fun t => t.left + t.width)),
                 intListMax (t0.top + t0.height)
                   (rest.map (fun t => t.top + t.height))),
              raw_cells := (t0 :: rest).map Token.text }

/-- The footer keywords of `extract_candidates_text_based`. -/
def totalKeywords : List String :=
  ["total", "subtotal", "grand total", "amount due", "balance",
   "net amount", "sum", "category total"]

/-- The per-row filters and id assignment of
`extract_candidates_text_based`: a row's candidate is kept unless its
description is shorter than 3 characters, its amount is non-zero with
absolute value above 999999999, or its lowercased description contains a
total/summary keyword; kept candidates get ids 1, 2, ... in order. -/
def assignLoop (pageNo : ℤ) : ℤ → List (List Token) → List Candidate
  | _, [] => []
  | cid, row :: rest =>
      match extract_line_item_from_row row with
      | none => assignLoop pageNo cid rest
      | some item =>
          if item.desc.length < 3 then assignLoop pageNo cid rest
          else if item.amount ≠ 0 ∧ 999999999 < qabs item.amount then
            assignLoop pageNo cid rest
          else if totalKeywords.any
              (fun kw => containsSub kw.data (pyLower item.desc).data) then
            assignLoop pageNo cid rest
          else
            ⟨cid, pageNo, some item.bbox, item.raw_cells, item.desc,
              some item.amount, item.conf, none⟩ :: assignLoop pageNo (cid + 1) rest

/-- `text_based_extraction.extract_candidates_text_based`, starting from
the token list the external OCR collaborator supplies for the page:
drop tokens below confidence 30, cluster into rows with threshold 20, and
run the per-row extraction with a fresh id counter starting at 1. -/
def extract_candidates_text_based (tokens : List Token) (pageNo : ℤ) :
    List Candidate :=
  if tokens.isEmpty then []
  else
    assignLoop pageNo 1
      (cluster_tokens_into_rows (tokens.filter (fun t => 30 ≤ t.conf)) 20)

/-- The per-page extraction loop of `app.extract_bill_data` step 3: pages
are processed in order, page numbers starting at 1, and the resulting
candidate lists are concatenated. -/
def runTextPipeline (pages : List (List Token)) : List Candidate :=
  (pages.enum.map (fun p => extract_candidates_text_based p.2 ((p.1 : ℤ) + 1))).flatten

/-- A description token used in concrete runs. -/
def tokWidget : Token := ⟨"Widget", 90, 10, 10, 50, 20⟩

/-- An amount token used in concrete runs. -/
def tokNum : Token := ⟨"100.50", 90, 200, 10, 50, 20⟩

theorem extract_amount_widget : extract_amount_from_cell_text "Widget" = none := by
  simp [extract_amount_from_cell_text, Char.toLower]

theorem extract_amount_num :
    extract_amount_from_cell_text "100.50" = some (100.5 : ℚ) := by
  simp [extract_amount_from_cell_text, Char.toLower]
  norm_num

theorem rowStripped_widget_num :
    rowStripped [tokWidget, tokNum] = [("Widget", 90), ("100.50", 90)] := by
  simp [rowStripped, tokWidget, tokNum, String.ext_iff]

theorem row_item_widget_num :
    extract_line_item_from_row [tokWidget, tokNum] =
      some ⟨"Widget", 100.5, 90, (10, 10, 250, 30), ["Widget", "100.50"]⟩ := by
  have ha : rowAmounts [tokWidget, tokNum] = [(100.5 : ℚ)] := by
    simp [rowAmounts, rowStripped_widget_num, extract_amount_widget,
      extract_amount_num]
  have hd : rowDescTokens [tokWidget, tokNum] = ["Widget"] := by
    simp [rowDescTokens, rowStripped_widget_num, extract_amount_widget,
      extract_amount_num]
  rw [extract_line_item_from_row]
  simp only [ha, hd]
  norm_num [tokWidget, tokNum, intListMin, intListMax, joinSpace]

set_option maxRecDepth 4000 in
theorem page_candidates_widget_num (pg : ℤ) :
    extract_candidates_text_based [tokWidget, tokNum] pg =
      [⟨1, pg, some (10, 10, 250, 30), ["Widget", "100.50"], "Widget",
        some 100.5, 90, none⟩] := by
  have h30 : ((30:ℚ) ≤ 90) = True := by norm_num
  have hclu : cluster_tokens_into_rows
      ([tokWidget, tokNum].filter (fun t => 30 ≤ t.conf)) 20 =
      [[tokWidget, tokNum]] := by
    simp [cluster_tokens_into_rows, sortStable, insertStable, clusterAux,
      tokWidget, tokNum, h30]
  rw [extract_candidates_text_based]
  simp only [List.isEmpty_cons, Bool.false_eq_true, if_false, hclu]
  rw [assignLoop]
  simp only [row_item_widget_num]
  simp [totalKeywords, Char.toLower, String.length, assignLoop]
  norm_num

/-- Claim C4 (divergence witness): in a two-page run where each page
yields one candidate, the per-call id counter of
`extract_candidates_text_based` restarts at 1, so the page-1 candidate and
the page-2 candidate share id 1; ids are not unique across the run. -/
theorem claim_C4_ids_repeat_across_pages :
    (runTextPipeline [[tokWidget, tokNum], [tokWidget, tokNum]]).map
      (fun c => (c.id, c.page)) = [(1, 1), (1, 2)] := by
  simp [runTextPipeline, List.enum, List.enumFrom, page_candidates_widget_num]

/-- The last element of a filtered list is the last element satisfying the
predicate (scanning from the right). -/
theorem getLast?_filter_eq_find?_reverse (p : α → Bool) (l : List α) :
    (l.filter p).getLast? = l.reverse.find? p := by
  induction l using List.reverseRecOn with
  | nil => simp
  | append_singleton l' a ih =>
      rw [List.filter_append, List.reverse_append]
      simp only [List.filter_cons, List.filter_nil, List.reverse_singleton,
        List.singleton_append, List.find?]
      cases hp : p a with
      | true => simp
      | false =>
          simp only [Bool.false_eq_true, if_false, List.append_nil,
            List.nil_append, List.append_eq]
          exact ih

/-- Claim C9 (amended): for every row of tokens, the produced candidate's
amount is the value of the right-most token whose parsed value is strictly
greater than 0.01; when no parsed value exceeds 0.01 the amount is the
value of the last numeric token, and when the row has no numeric token no
candidate is produced. -/
theorem claim_C9_row_amount_selection (row : List Token) :
    (extract_line_item_from_row row).map RawItem.amount =
      match (rowAmounts row).getLast? with
      | none => none
      | some lastAmt =>
          some (((rowAmounts row).reverse.find? (fun a => a > 1/100)).getD lastAmt) := by
  cases row with
  | nil => simp [extract_line_item_from_row, rowAmounts, rowStripped]
  | cons t0 rest =>
      rw [extract_line_item_from_row]
      cases h : (rowAmounts (t0 :: rest)).getLast? with
      | none => simp [h]
      | some lastAmt =>
          simp only [h, getLast?_filter_eq_find?_reverse]
          rfl

/-- A parenthesised negative amount token. -/
def tokParen : Token := ⟨"(500.00)", 90, 100, 10, 50, 20⟩

/-- A zero amount token (as in a zero-valued discount column). -/
def tokZero : Token := ⟨"0.00", 90, 200, 10, 30, 20⟩

theorem extract_amount_paren500 :
    extract_amount_from_cell_text "(500.00)" = some (-500) := by
  simp [extract_amount_from_cell_text, Char.toLower]

theorem extract_amount_zero :
    extract_amount_from_cell_text "0.00" = some 0 := by
  simp [extract_amount_from_cell_text, Char.toLower]

theorem rowAmounts_paren_zero :
    rowAmounts [tokWidget, tokParen, tokZero] = [-500, 0] := by
  have hs : rowStripped [tokWidget, tokParen, tokZero] =
      [("Widget", 90), ("(500.00)", 90), ("0.00", 90)] := by
    simp [rowStripped, tokWidget, tokParen, tokZero, String.ext_iff]
  simp [rowAmounts, hs, extract_amount_widget, extract_amount_paren500,
    extract_amount_zero]

/-- Counterexample to C9 as stated: in the row
`["Widget", "(500.00)", "0.00"]` the right-most token parsing to a
non-zero value is `"(500.00)"` (value −500), but the code only prefers
values greater than 0.01, so it falls back to the last numeric token and
produces amount 0. -/
theorem claim_C9_counterexample :
    (extract_line_item_from_row [tokWidget, tokParen, tokZero]).map
      RawItem.amount = some 0 ∧
    ((rowAmounts [tokWidget, tokParen, tokZero]).reverse.find?
      (fun a => a ≠ 0)).getD 0 = -500 := by
  constructor
  · rw [extract_line_item_from_row]
    simp only [rowAmounts_paren_zero]
    norm_num
  · simp only [rowAmounts_paren_zero]
    norm_num

/-! ### `dedupe.py`: canonicalisation and fuzzy deduplication

The rapidfuzz scorer `fuzz.token_set_ratio` is an external library; the
deduplicator is parameterised over a similarity function `sim` standing
for it.  Any such scorer returns 100 on two identical strings, which is
all the concrete runs below rely on.  The `ZeroDivisionError` that Python
raises on a zero divisor is made explicit with `Except Unit`. -/

/-- Python `abs` on an integer. -/
def intAbs (z : ℤ) : ℤ := if z < 0 then -z else z

/-- Python `max` on two rationals (value-wise). -/
def qmax (a b : ℚ) : ℚ := if a < b then b else a

/-- `dedupe.INVOICE_STOPWORDS`. -/
def INVOICE_STOPWORDS : List String :=
  ["qty", "nos", "no", "pcs", "pc", "each", "pack", "pkt", "box",
   "unit", "units", "item", "items", "ea", "per", "total", "amt",
   "amount", "rate", "price", "value", "description", "desc"]

/-- `dedupe.canonicalize_description`: lowercase, replace every character
that is neither a word character nor whitespace by a space, split on
whitespace, drop the invoice stopwords, rejoin with single spaces and
strip. -/
def canonicalize_description (s : String) : String :=
  if s.data.isEmpty then ""
  else
    let lowered := s.data.map Char.toLower
    let depunct := lowered.map
      (fun c => if isWordCharRe c || c.isWhitespace then c else ' ')
    let toks := splitWs depunct
    let filtered := toks.filter
      (fun t => !(INVOICE_STOPWORDS.any (fun w => w.data = t)))
    ⟨pyStripChars (joinSpaceChars filtered)⟩

/-- The `y1` coordinate a candidate is compared and sorted by
(`candidate.get('bbox', (0, 0, 0, 0))[1]`). -/
def dedupeY (c : Candidate) : ℤ := (c.bbox.getD (0, 0, 0, 0)).2.1

/-- The decision `deduplicate_candidates` takes for one later candidate
against the seed of the current group (`dedupe.py` lines 119-160): join
when the canonical descriptions score at least the threshold and the
secondary amount/position gating passes; raise `ZeroDivisionError` when
both amounts are present, the score passes, and the larger amount is
zero. -/
def pairTest (sim : String → String → ℚ) (thresh : ℚ) (c other : Candidate) :
    Except Unit Bool :=
  if thresh ≤ sim (canonicalize_description c.desc)
      (canonicalize_description other.desc) then
    match c.amount, other.amount with
    | some a, some b =>
        if qmax a b = 0 then .error ()
        else if qabs (a - b) / qmax a b * 100 > 5 then .ok false
        else if qabs (pyRound2 a - pyRound2 b) < 1/100 then
          if c.page = other.page then
            .ok (intAbs (dedupeY c - dedupeY other) < 50)
          else .ok true
        else .ok false
    | none, none => .ok true
    | _, _ => .ok false
  else .ok false

/-- The scan of all later unprocessed candidates against one group seed:
returns the candidates joining the seed's group and the ones left for
later groups, in order. -/
def scanGroup (sim : String → String → ℚ) (thresh : ℚ) (seed : Candidate) :
    List Candidate → Except Unit (List Candidate × List Candidate)
  | [] => .ok ([], [])
  | c :: rest => do
      let b ← pairTest sim thresh seed c
      let p ← scanGroup sim thresh seed rest
      if b then .ok (c :: p.1, p.2) else .ok (p.1, c :: p.2)

/-- The grouping loop of `deduplicate_candidates`; the fuel argument is
the length of the candidate list, which the scan never increases, so the
zero-fuel branch is never taken. -/
def buildGroupsAux (sim : String → String → ℚ) (thresh : ℚ) :
    Nat → List Candidate → Except Unit (List (List Candidate))
  | _, [] => .ok []
  | 0, _ :: _ => .ok []
  | n + 1, c :: rest => do
      let p ← scanGroup sim thresh c rest
      let gs ← buildGroupsAux sim thresh n p.2
      .ok ((c :: p.1) :: gs)

/-- All groups, each headed by its seed. -/
def buildGroups (sim : String → String → ℚ) (thresh : ℚ)
    (cands : List Candidate) : Except Unit (List (List Candidate)) :=
  buildGroupsAux sim thresh cands.length cands

/-- Python `max(candidates, key=conf)`: the first candidate with the
maximal confidence. -/
def maxByConf : Candidate → List Candidate → Candidate
  | best, [] => best
  | best, c :: rest => maxByConf (if best.conf < c.conf then c else best) rest

/-- Group resolution: a singleton group keeps its candidate; a larger
group is represented by its highest-confidence member, which records the
group's ids in `merged_ids` and takes the group's mean confidence. -/
def resolveGroup : List Candidate → Candidate
  | [] => ⟨0, 0, none, [], "", none, 0, none⟩
  | [c] => c
  | c :: rest =>
      let rep := maxByConf c rest
      { rep with
          merged_ids := some ((c :: rest).map (fun x => x.id)),
          conf := ((c :: rest).map (fun x => x.conf)).sum /
            (((c :: rest).length : ℚ)) }

/-- The final stable sort key `(page, bbox[1])`, as a strict comparison. -/
def pageYLt (a b : Candidate) : Bool :=
  a.page < b.page || (a.page = b.page && dedupeY a < dedupeY b)

/-- `dedupe.deduplicate_candidates`, parameterised over the similarity
scorer; `.error ()` is Python's uncaught `ZeroDivisionError`. -/
def deduplicate_candidates (sim : String → String → ℚ) (cands : List Candidate)
    (thresh : ℚ) : Except Unit (List Candidate) :=
  if cands.isEmpty then .ok []
  else do
    let gs ← buildGroups sim thresh cands
    .ok (sortStable pageYLt (gs.map resolveGroup))

/-- A similarity scorer agreeing with `fuzz.token_set_ratio` on the only
inputs the concrete runs use: two identical strings score 100. -/
def simEq (a b : String) : ℚ := if a = b then 100 else 0

theorem insertStable_length (lt : α → α → Bool) (x : α) (l : List α) :
    (insertStable lt x l).length = l.length + 1 := by
  induction l with
  | nil => rfl
  | cons y ys ih =>
      rw [insertStable]
      split
      · simp [ih]
      · simp

theorem sortStable_length (lt : α → α → Bool) (l : List α) :
    (sortStable lt l).length = l.length := by
  induction l with
  | nil => rfl
  | cons x xs ih => rw [sortStable, insertStable_length, ih, List.length_cons]

/-- First candidate of the C10 failing input: amount 0.0. -/
def dupZeroA : Candidate := ⟨1, 1, some (10, 10, 200, 30), [], "widget", some 0, 92, none⟩

/-- Second candidate of the C10 failing input: amount 0.0 again. -/
def dupZeroB : Candidate := ⟨2, 1, some (10, 40, 200, 60), [], "widget", some 0, 88, none⟩

/-- Claim C10 (divergence witness): on two candidates with identical
descriptions (any scorer gives 100 for identical strings, passing the
88 threshold) and amounts both 0.0, the relative-difference computation
divides by `max(0.0, 0.0) = 0` and `deduplicate_candidates` raises
`ZeroDivisionError` instead of terminating normally. -/
theorem claim_C10_zero_division :
    deduplicate_candidates simEq [dupZeroA, dupZeroB] 88 = .error () := by
  have hpt : pairTest simEq 88 dupZeroA dupZeroB = .error () := by
    have hs : simEq (canonicalize_description dupZeroA.desc)
        (canonicalize_description dupZeroB.desc) = 100 := by
      rw [show dupZeroA.desc = dupZeroB.desc from rfl, simEq, if_pos rfl]
    rw [pairTest, hs]
    norm_num [qmax, show dupZeroA.amount = some 0 from rfl,
      show dupZeroB.amount = some 0 from rfl]
  simp only [deduplicate_candidates, buildGroups, buildGroupsAux, scanGroup, hpt,
    List.isEmpty_cons, Bool.false_eq_true, if_false, List.length_cons,
    List.length_singleton, List.length_nil]
  rfl

/-- Running the deduplicator on exactly two candidates: they merge into
one record precisely when the pairwise decision accepts them. -/
theorem dedup_pair (sim : String → String → ℚ) (thresh : ℚ)
    (a b : Candidate) (v : Bool) (h : pairTest sim thresh a b = .ok v) :
    deduplicate_candidates sim [a, b] thresh =
      .ok (if v then [resolveGroup [a, b]] else sortStable pageYLt [a, b]) := by
  cases v with
  | true =>
      simp only [deduplicate_candidates, buildGroups, buildGroupsAux, scanGroup,
        h, List.isEmpty_cons, Bool.false_eq_true, if_false, List.length_cons,
        List.length_singleton, List.length_nil, if_true]
      rfl
  | false =>
      simp only [deduplicate_candidates, buildGroups, buildGroupsAux, scanGroup,
        h, List.isEmpty_cons, Bool.false_eq_true, if_false, List.length_cons,
        List.length_singleton, List.length_nil]
      rfl

/-- Claim C6 (amended): for a run on exactly two candidates whose canonical
descriptions meet the similarity threshold, which both carry amounts whose
relative difference is at most 5% of the larger (the larger being nonzero,
else the code raises), and whose amounts agree to within 0.01 after
rounding to 2 decimals, the pair is merged into one record iff they are on
the same page with tops vertically within 50 pixels, or on different
pages. -/
theorem claim_C6_pair_merge (sim : String → String → ℚ) (thresh : ℚ)
    (a b : Candidate) (x y : ℚ)
    (hsim : thresh ≤ sim (canonicalize_description a.desc)
      (canonicalize_description b.desc))
    (ha : a.amount = some x) (hb : b.amount = some y)
    (hmax : qmax x y ≠ 0)
    (hpct : qabs (x - y) / qmax x y * 100 ≤ 5)
    (hround : qabs (pyRound2 x - pyRound2 y) < 1/100) :
    ∃ l, deduplicate_candidates sim [a, b] thresh = .ok l ∧
      (l.length = 1 ↔
        (a.page = b.page ∧ intAbs (dedupeY a - dedupeY b) < 50) ∨
          a.page ≠ b.page) := by
  have hpt : pairTest sim thresh a b =
      .ok (if a.page = b.page then decide (intAbs (dedupeY a - dedupeY b) < 50)
        else true) := by
    rw [pairTest, if_pos hsim]
    simp only [ha, hb]
    rw [if_neg hmax, if_neg (not_lt.mpr hpct), if_pos hround]
    by_cases hp : a.page = b.page <;> simp [hp]
  by_cases hp : a.page = b.page
  · by_cases h50 : intAbs (dedupeY a - dedupeY b) < 50
    · refine ⟨[resolveGroup [a, b]], ?_, ?_⟩
      · have := dedup_pair sim thresh a b true (by simpa [hp, h50] using hpt)
        simpa using this
      · simp [hp, h50]
    · refine ⟨sortStable pageYLt [a, b], ?_, ?_⟩
      · have := dedup_pair sim thresh a b false (by simpa [hp, h50] using hpt)
        simpa using this
      · rw [sortStable_length]
        simp [hp, h50]
  · refine ⟨[resolveGroup [a, b]], ?_, ?_⟩
    · have := dedup_pair sim thresh a b true (by simpa [hp] using hpt)
      simpa using this
    · simp [hp]

/-- First witness candidate for C6: same page, tops 30 pixels apart. -/
def c6SameA : Candidate := ⟨1, 1, some (10, 10, 200, 30), [], "widget", some 100, 92, none⟩

/-- Second witness candidate for C6. -/
def c6SameB : Candidate := ⟨2, 1, some (10, 40, 200, 60), [], "widget", some 100, 88, none⟩

/-- Witness for C6 (amended), at two same-page candidates with equal
amounts and identical descriptions. -/
theorem claim_C6_witness :
    ∃ l, deduplicate_candidates simEq [c6SameA, c6SameB] 88 = .ok l ∧
      (l.length = 1 ↔
        (c6SameA.page = c6SameB.page ∧
          intAbs (dedupeY c6SameA - dedupeY c6SameB) < 50) ∨
          c6SameA.page ≠ c6SameB.page) :=
  claim_C6_pair_merge simEq 88 c6SameA c6SameB 100 100
    (by rw [show c6SameA.desc = c6SameB.desc from rfl, simEq, if_pos rfl]
        norm_num)
    rfl rfl (by norm_num [qmax]) (by norm_num [qabs, qmax])
    (by norm_num [qabs])

/-- First counterexample candidate for C6: amount 0.004. -/
def c6TinyA : Candidate := ⟨1, 1, some (10, 10, 200, 30), [], "widget", some (1/250), 92, none⟩

/-- Second counterexample candidate for C6: amount 0.0, same page, same top. -/
def c6TinyB : Candidate := ⟨2, 1, some (10, 10, 200, 60), [], "widget", some 0, 88, none⟩

theorem pyRound2_tiny : pyRound2 (1/250) = 0 := by
  have h1 : (100 : ℚ) * (1/250) = 2/5 := by norm_num
  have h2 : ⌊(2/5 : ℚ)⌋ = 0 := by
    rw [Int.floor_eq_zero_iff]
    constructor <;> norm_num
  rw [pyRound2, roundHalfEven, h1, h2]
  norm_num

theorem pyRound2_zero : pyRound2 0 = 0 := by
  rw [pyRound2, roundHalfEven]
  norm_num

/-- Counterexample to C6 as stated: the two candidates have identical
descriptions (score 100 ≥ 88), amounts 0.004 and 0.0 that agree to within
0.01 after rounding to 2 decimals, and sit on the same page with equal
tops — yet they are not merged, because the code first rejects any pair
whose amounts differ by more than 5% of the larger (here by 100%). -/
theorem claim_C6_counterexample :
    (88 : ℚ) ≤ simEq (canonicalize_description c6TinyA.desc)
      (canonicalize_description c6TinyB.desc) ∧
    qabs (pyRound2 (1/250) - pyRound2 0) < 1/100 ∧
    c6TinyA.page = c6TinyB.page ∧
    intAbs (dedupeY c6TinyA - dedupeY c6TinyB) < 50 ∧
    (deduplicate_candidates simEq [c6TinyA, c6TinyB] 88).map List.length =
      .ok 2 := by
  refine ⟨?_, ?_, rfl, by norm_num [intAbs, dedupeY, c6TinyA, c6TinyB], ?_⟩
  · rw [show c6TinyA.desc = c6TinyB.desc from rfl, simEq, if_pos rfl]
    norm_num
  · rw [pyRound2_tiny, pyRound2_zero]
    norm_num [qabs]
  · have hpt : pairTest simEq 88 c6TinyA c6TinyB = .ok false := by
      have hs : simEq (canonicalize_description c6TinyA.desc)
          (canonicalize_description c6TinyB.desc) = 100 := by
        rw [show c6TinyA.desc = c6TinyB.desc from rfl, simEq, if_pos rfl]
      rw [pairTest, hs, if_pos (by norm_num)]
      simp only [show c6TinyA.amount = some (1/250) from rfl,
        show c6TinyB.amount = some 0 from rfl]
      rw [if_neg (by norm_num [qmax]), if_pos (by norm_num [qabs, qmax])]
    rw [dedup_pair simEq 88 c6TinyA c6TinyB false hpt]
    simp [Except.map, sortStable_length]

/-! ### `reconcile.make_duplicate_groups_from_candidates` -/

/-- The key the source groups by: `candidate.get('desc', '').strip().lower()`
(plain strip and lowercase, not the deduplicator's canonicalisation). -/
def descKey (s : String) : String := ⟨(pyStripChars s.data).map Char.toLower⟩

/-- The `(desc, amount)` key of a candidate, `none` when the amount is
missing (such candidates are skipped). -/
def dupKey (c : Candidate) : Option (String × ℚ) :=
  match c.amount with
  | none => none
  | some a => some (descKey c.desc, pyRound2 a)

/-- Append an id under its key in the insertion-ordered association list
that models the Python dict `key_to_ids`. -/
def insertId (k : String × ℚ) (i : ℤ) :
    List ((String × ℚ) × List ℤ) → List ((String × ℚ) × List ℤ)
  | [] => [(k, [i])]
  | e :: rest => if e.1 = k then (e.1, e.2 ++ [i]) :: rest else e :: insertId k i rest

/-- One step of the building loop. -/
def buildStep (key : Candidate → Option (String × ℚ))
    (m : List ((String × ℚ) × List ℤ)) (c : Candidate) :
    List ((String × ℚ) × List ℤ) :=
  match key c with
  | none => m
  | some k => insertId k c.id m

/-- The dict `key_to_ids` after the whole candidate loop, generic in the
key function. -/
def buildKeyMapBy (key : Candidate → Option (String × ℚ))
    (cands : List Candidate) : List ((String × ℚ) × List ℤ) :=
  cands.foldl (buildStep key) []

/-- The groups of ids sharing a key, keys in first-appearance order,
restricted to keys shared by at least two candidates. -/
def groupsBy (key : Candidate → Option (String × ℚ))
    (cands : List Candidate) : List (List ℤ) :=
  if cands.isEmpty then []
  else ((buildKeyMapBy key cands).filter (fun e => 1 < e.2.length)).map
    (fun e => e.2)

/-- `reconcile.make_duplicate_groups_from_candidates`. -/
def make_duplicate_groups_from_candidates (cands : List Candidate) :
    List (List ℤ) :=
  groupsBy dupKey cands

/-- The key the claim describes: the Deduplicator's canonical description
(lowercased, punctuation-stripped, stopword-filtered) paired with the
rounded amount.  Stated from the claim's wording, for comparison with the
source's `dupKey`. -/
def dupKeyClaimed (c : Candidate) : Option (String × ℚ) :=
  match c.amount with
  | none => none
  | some a => some (canonicalize_description c.desc, pyRound2 a)

/-- The detector the claim describes. -/
def duplicateGroupsClaimed (cands : List Candidate) : List (List ℤ) :=
  groupsBy dupKeyClaimed cands

/-- The ids of the candidates carrying key `k`, in order. -/
def idsForKey (key : Candidate → Option (String × ℚ))
    (cands : List Candidate) (k : String × ℚ) : List ℤ :=
  (cands.filter (fun c => key c = some k)).map (fun c => c.id)

/-- One step of first-appearance key collection. -/
def keyStep (key : Candidate → Option (String × ℚ))
    (ks : List (String × ℚ)) (c : Candidate) : List (String × ℚ) :=
  match key c with
  | none => ks
  | some k => if k ∈ ks then ks else ks ++ [k]

/-- The distinct keys of the candidate list, in first-appearance order. -/
def keyOrder (key : Candidate → Option (String × ℚ))
    (cands : List Candidate) : List (String × ℚ) :=
  cands.foldl (keyStep key) []

theorem idsForKey_cons (key : Candidate → Option (String × ℚ))
    (c : Candidate) (l : List Candidate) (k : String × ℚ) :
    idsForKey key (c :: l) k =
      (if key c = some k then [c.id] else []) ++ idsForKey key l k := by
  by_cases h : key c = some k
  · simp [idsForKey, List.filter_cons, h]
  · simp [idsForKey, List.filter_cons, h]

theorem insertId_not_mem (k : String × ℚ) (i : ℤ) (g : String × ℚ → List ℤ) :
    ∀ ks : List (String × ℚ), k ∉ ks →
      insertId k i (ks.map (fun k2 => (k2, g k2))) =
        ks.map (fun k2 => (k2, g k2)) ++ [(k, [i])] := by
  intro ks
  induction ks with
  | nil => intro _; rfl
  | cons k2 ks2 ih =>
      intro hk
      have h1 : ¬(k2 = k) := by
        intro he
        subst he
        exact hk (List.mem_cons_self _ _)
      rw [List.map_cons, insertId, if_neg h1,
        ih (fun hm => hk (List.mem_cons_of_mem _ hm))]
      rfl

theorem insertId_mem (k : String × ℚ) (i : ℤ) (g : String × ℚ → List ℤ) :
    ∀ ks : List (String × ℚ), ks.Nodup → k ∈ ks →
      insertId k i (ks.map (fun k2 => (k2, g k2))) =
        ks.map (fun k2 => (k2, if k2 = k then g k2 ++ [i] else g k2)) := by
  intro ks
  induction ks with
  | nil =>
      intro _ h
      simp at h
  | cons k2 ks2 ih =>
      intro hnd hk
      rw [List.map_cons, insertId]
      by_cases h2 : k2 = k
      · rw [if_pos h2]
        subst h2
        rw [List.map_cons, if_pos rfl]
        have : ks2.map (fun k3 => (k3, g k3)) =
            ks2.map (fun k3 => (k3, if k3 = k2 then g k3 ++ [i] else g k3)) := by
          apply List.map_congr_left
          intro k3 hk3
          have : ¬(k3 = k2) := by
            intro he
            subst he
            exact (List.nodup_cons.mp hnd).1 hk3
          simp [this]
        rw [this]
      · have hk2 : k ∈ ks2 := by
          rcases List.mem_cons.mp hk with he | hm
          · exact absurd he.symm h2
          · exact hm
        rw [if_neg h2, List.map_cons, if_neg h2,
          ih (List.nodup_cons.mp hnd).2 hk2]

/-- The dict built by the loop, over any insertion-ordered starting state:
keys stay in first-appearance order and each entry collects exactly the
ids of the candidates carrying its key. -/
theorem buildKeyMap_invariant (key : Candidate → Option (String × ℚ)) :
    ∀ (rest : List Candidate) (ks : List (String × ℚ))
      (g : String × ℚ → List ℤ), ks.Nodup →
      List.foldl (buildStep key) (ks.map (fun k => (k, g k))) rest =
        (List.foldl (keyStep key) ks rest).map
          (fun k => (k, (if k ∈ ks then g k else []) ++ idsForKey key rest k)) := by
  intro rest
  induction rest with
  | nil =>
      intro ks g hnd
      simp only [List.foldl_nil]
      apply List.map_congr_left
      intro k hk
      simp [idsForKey, if_pos hk]
  | cons c rest2 ih =>
      intro ks g hnd
      rw [List.foldl_cons, List.foldl_cons]
      cases hkey : key c with
      | none =>
          simp only [buildStep, keyStep, hkey]
          rw [ih ks g hnd]
          apply List.map_congr_left
          intro k _
          simp [idsForKey_cons, hkey]
      | some k0 =>
          simp only [buildStep, keyStep, hkey]
          by_cases hmem : k0 ∈ ks
          · rw [if_pos hmem,
              insertId_mem k0 c.id g ks hnd hmem,
              ih ks (fun k2 => if k2 = k0 then g k2 ++ [c.id] else g k2) hnd]
            apply List.map_congr_left
            intro k _
            by_cases hk0 : k = k0
            · subst hk0
              simp [hmem, idsForKey_cons, hkey]
            · have : ¬(some k0 = some k) := by
                intro he
                exact hk0 (Option.some.injEq .. ▸ he).symm
              simp [hk0, idsForKey_cons, hkey, this]
          · rw [if_neg hmem, insertId_not_mem k0 c.id g ks hmem]
            have hmap : ks.map (fun k2 => (k2, g k2)) ++ [(k0, [c.id])] =
                (ks ++ [k0]).map
                  (fun k2 => (k2, if k2 = k0 then [c.id] else g k2)) := by
              rw [List.map_append]
              congr 1
              · apply List.map_congr_left
                intro k2 hk2
                have : ¬(k2 = k0) := by
                  intro he
                  subst he
                  exact hmem hk2
                simp [this]
              · simp
            have hnd2 : (ks ++ [k0]).Nodup := by
              apply List.Nodup.append hnd (List.nodup_singleton k0)
              intro a ha hb
              rw [List.mem_singleton] at hb
              subst hb
              exact hmem ha
            rw [hmap, ih (ks ++ [k0]) (fun k2 => if k2 = k0 then [c.id] else g k2) hnd2]
            apply List.map_congr_left
            intro k _
            by_cases hk0 : k = k0
            · subst hk0
              simp [hmem, idsForKey_cons, hkey]
            · have hne : ¬(some k0 = some k) := by
                intro he
                exact hk0 (Option.some.injEq .. ▸ he).symm
              have hmemiff : k ∈ ks ++ [k0] ↔ k ∈ ks := by
                simp [List.mem_append, hk0]
              simp [hk0, idsForKey_cons, hkey, hne, hmemiff]

theorem buildKeyMapBy_eq (key : Candidate → Option (String × ℚ))
    (cands : List Candidate) :
    buildKeyMapBy key cands =
      (keyOrder key cands).map (fun k => (k, idsForKey key cands k)) := by
  have h := buildKeyMap_invariant key cands [] (fun _ => []) List.nodup_nil
  simp only [List.map_nil] at h
  rw [buildKeyMapBy, h, keyOrder]
  apply List.map_congr_left
  intro k _
  simp

theorem filter_of_map (f : α → β) (p : β → Bool) :
    ∀ l : List α, (l.map f).filter p = (l.filter (fun a => p (f a))).map f := by
  intro l
  induction l with
  | nil => rfl
  | cons a t ih =>
      simp only [List.map_cons, List.filter_cons]
      cases hp : p (f a) with
      | true => simp [ih]
      | false => simp [ih]

/-- Claim C5 (amended): `make_duplicate_groups_from_candidates` groups
candidates by the exact pair of the *stripped-and-lowercased* description
(`desc.strip().lower()`, not the Deduplicator's canonical description)
and the amount rounded to 2 decimals; candidates without an amount are in
no group, and exactly the keys shared by at least 2 candidates produce a
group, in first-appearance order, each group listing the ids of its
candidates in order. -/
theorem claim_C5_duplicate_groups (cands : List Candidate) :
    make_duplicate_groups_from_candidates cands =
      ((keyOrder dupKey cands).filter
        (fun k => 1 < (idsForKey dupKey cands k).length)).map
        (fun k => idsForKey dupKey cands k) := by
  cases cands with
  | nil => rfl
  | cons c rest =>
      rw [make_duplicate_groups_from_candidates, groupsBy,
        if_neg (by simp), buildKeyMapBy_eq, filter_of_map, List.map_map]
      rfl

theorem pyRound2_intCast (z : ℤ) : pyRound2 (z : ℚ) = z := by
  rw [pyRound2, roundHalfEven]
  have h1 : (100 : ℚ) * z = ((100 * z : ℤ) : ℚ) := by push_cast; ring
  rw [h1, Int.floor_intCast]
  rw [if_pos (by norm_num)]
  push_cast
  ring

/-- First counterexample candidate for C5: description `"a,b"`. -/
def c5CommaA : Candidate := ⟨1, 1, some (0, 0, 10, 10), [], "a,b", some 100, 90, none⟩

/-- Second counterexample candidate for C5: description `"a b"`. -/
def c5SpaceB : Candidate := ⟨2, 1, some (0, 20, 10, 30), [], "a b", some 100, 85, none⟩

/-- Counterexample to C5 as stated: two candidates with the same canonical
description (`"a,b"` and `"a b"` both canonicalise to `"a b"`) and the
same amount; grouping by the canonical description (as the claim words it)
would produce the group `[1, 2]`, but the source keys on the merely
stripped-and-lowercased description, finds two different keys, and
produces no group. -/
theorem claim_C5_counterexample :
    make_duplicate_groups_from_candidates [c5CommaA, c5SpaceB] = [] ∧
    canonicalize_description c5CommaA.desc =
      canonicalize_description c5SpaceB.desc ∧
    duplicateGroupsClaimed [c5CommaA, c5SpaceB] = [[1, 2]] := by
  have hr : pyRound2 ((100 : ℤ) : ℚ) = ((100 : ℤ) : ℚ) := pyRound2_intCast 100
  have hr100 : pyRound2 (100 : ℚ) = (100 : ℚ) := by
    have : ((100 : ℤ) : ℚ) = (100 : ℚ) := by norm_num
    rw [this] at hr
    exact hr
  have hcanon : canonicalize_description "a,b" = canonicalize_description "a b" := by
    simp [canonicalize_description, Char.toLower, INVOICE_STOPWORDS, joinSpaceChars]
  refine ⟨?_, hcanon, ?_⟩
  · have hne : descKey "a,b" ≠ descKey "a b" := by
      simp [descKey, Char.toLower, String.ext_iff]
    rw [make_duplicate_groups_from_candidates, groupsBy, if_neg (by simp)]
    have hk1 : dupKey c5CommaA = some (descKey "a,b", 100) := by
      simp only [dupKey, show c5CommaA.amount = some 100 from rfl,
        show c5CommaA.desc = "a,b" from rfl]
      rw [hr100]
    have hk2 : dupKey c5SpaceB = some (descKey "a b", 100) := by
      simp only [dupKey, show c5SpaceB.amount = some 100 from rfl,
        show c5SpaceB.desc = "a b" from rfl]
      rw [hr100]
    have hmap : buildKeyMapBy dupKey [c5CommaA, c5SpaceB] =
        [(( descKey "a,b", 100), [1]), ((descKey "a b", 100), [2])] := by
      rw [buildKeyMapBy]
      simp only [List.foldl_cons, List.foldl_nil, buildStep, hk1, hk2]
      rw [insertId, insertId]
      rw [if_neg (by simp [hne])]
      rfl
    rw [hmap]
    rfl
  · have hkc : dupKeyClaimed c5CommaA = some (canonicalize_description "a b", 100) := by
      simp only [dupKeyClaimed, show c5CommaA.amount = some 100 from rfl,
        show c5CommaA.desc = "a,b" from rfl]
      rw [hr100, hcanon]
    have hkc2 : dupKeyClaimed c5SpaceB = some (canonicalize_description "a b", 100) := by
      simp only [dupKeyClaimed, show c5SpaceB.amount = some 100 from rfl,
        show c5SpaceB.desc = "a b" from rfl]
      rw [hr100]
    rw [duplicateGroupsClaimed, groupsBy, if_neg (by simp)]
    have hmap : buildKeyMapBy dupKeyClaimed [c5CommaA, c5SpaceB] =
        [((canonicalize_description "a b", 100), [1, 2])] := by
      rw [buildKeyMapBy]
      simp only [List.foldl_cons, List.foldl_nil, buildStep, hkc, hkc2]
      rw [insertId, insertId, if_pos rfl]
      rfl
    rw [hmap]
    rfl

/-! ### `reconcile.ilp_reconcile`

PuLP with the CBC backend is an external exact MILP solver.  Its contract
is modelled directly: after projecting out the auxiliary deviation
variables `z_plus`/`z_minus` (whose optimal value for a fixed 0/1
assignment is forced to the absolute deviation, and which are feasible
iff that deviation is within tolerance), the solve amounts to picking an
objective-maximal subset of the distinct candidate ids among those
satisfying the tolerance and duplicate-group constraints, or reporting
that none is feasible. -/

/-- The result dictionary of `ilp_reconcile`. -/
structure ReconcileResult where
  selected_ids : List ℤ
  selected_total : ℚ
  deviation : ℚ
  status : String
deriving DecidableEq, Repr

/-- Sum of the amounts of the valid candidates whose id is selected
(the lpSum over candidates of `amount * x_id`). -/
def selTotal (valid : List Candidate) (S : List ℤ) : ℚ :=
  ((valid.filter (fun c => c.id ∈ S)).map (fun c => c.amount.getD 0)).sum

/-- Sum of the confidences of the selected candidates. -/
def confTotal (valid : List Candidate) (S : List ℤ) : ℚ :=
  ((valid.filter (fun c => c.id ∈ S)).map (fun c => c.conf)).sum

/-- Feasibility of a 0/1 assignment (a set of selected ids): the deviation
constraint when a target is supplied, and for every duplicate group the
constraint `sum of the group's variables <= 1` (the sum ranges, with
multiplicity, over the group members that have a variable, i.e. are ids of
valid candidates). -/
def feasibleB (valid : List Candidate) (target : Option ℚ)
    (groups : List (List ℤ)) (tol : ℚ) (S : List ℤ) : Bool :=
  (match target with
   | none => true
   | some t => decide (qabs (selTotal valid S - t) ≤ tol)) &&
  groups.all (fun g =>
    decide ((g.filter
      (fun i => decide (i ∈ valid.map (fun c => c.id) ∧ i ∈ S))).length ≤ 1))

/-- The objective `sum conf_i x_i - 10 * |deviation|` after projecting out
the auxiliary variables. -/
def objective (valid : List Candidate) (target : Option ℚ) (S : List ℤ) : ℚ :=
  confTotal valid S -
    (match target with | none => 0 | some t => 10 * qabs (selTotal valid S - t))

/-- The distinct ids, as the dict of decision variables is keyed by id. -/
def dedupIds (l : List ℤ) : List ℤ :=
  l.foldl (fun acc i => if i ∈ acc then acc else acc ++ [i]) []

/-- All subsets of a list of ids. -/
def subsetsOf : List ℤ → List (List ℤ)
  | [] => [[]]
  | i :: rest => subsetsOf rest ++ (subsetsOf rest).map (fun S => i :: S)

/-- An objective-maximal element of a list of assignments (keeping the
earlier one on ties), `none` iff the list is empty. -/
def pickBest (f : List ℤ → ℚ) : List (List ℤ) → Option (List ℤ)
  | [] => none
  | S :: rest =>
      match pickBest f rest with
      | none => some S
      | some T => some (if f T > f S then T else S)

theorem pickBest_mem (f : List ℤ → ℚ) :
    ∀ (l : List (List ℤ)) (S : List ℤ), pickBest f l = some S → S ∈ l := by
  intro l
  induction l with
  | nil => intro S h; simp [pickBest] at h
  | cons a rest ih =>
      intro S h
      rw [pickBest] at h
      cases hr : pickBest f rest with
      | none =>
          rw [hr] at h
          simp only [Option.some.injEq] at h
          subst h
          exact List.mem_cons_self _ _
      | some T =>
          rw [hr] at h
          simp only [Option.some.injEq] at h
          by_cases hf : f T > f a
          · rw [if_pos hf] at h
            subst h
            exact List.mem_cons_of_mem _ (ih T hr)
          · rw [if_neg hf] at h
            subst h
            exact List.mem_cons_self _ _

/-- The exact solve: an objective-maximal feasible assignment, or `none`
when no assignment is feasible (CBC's non-`Optimal` outcome). -/
def solveILP (valid : List Candidate) (target : Option ℚ)
    (groups : List (List ℤ)) (tol : ℚ) : Option (List ℤ) :=
  pickBest (objective valid target)
    ((subsetsOf (dedupIds (valid.map (fun c => c.id)))).filter
      (feasibleB valid target groups tol))

/-- `reconcile.ilp_reconcile`: the empty-input and no-valid-amounts early
returns, the solve, the infeasible fallback, and the result assembly with
rounding to 2 decimals. -/
def ilp_reconcile (cands : List Candidate) (target : Option ℚ)
    (groups : List (List ℤ)) (tol : ℚ) : ReconcileResult :=
  if cands.isEmpty then ⟨[], 0, 0, "ok"⟩
  else
    let valid := cands.filter (fun c => c.amount.isSome)
    if valid.isEmpty then
      ⟨[], 0, (match target with | none => 0 | some t => qabs t),
        "no_valid_amounts"⟩
    else
      match solveILP valid target groups tol with
      | none =>
          ⟨[], 0, (match target with | none => 0 | some t => qabs t),
            "infeasible"⟩
      | some S =>
          ⟨(valid.filter (fun c => c.id ∈ S)).map (fun c => c.id),
            pyRound2 (selTotal valid S),
            pyRound2 (match target with
              | none => 0
              | some t => qabs (selTotal valid S - t)),
            "ok"⟩

theorem two_le_length_of_mem_ne {α : Type} {l : List α} {i j : α}
    (hi : i ∈ l) (hj : j ∈ l) (hne : i ≠ j) : 2 ≤ l.length := by
  cases l with
  | nil => simp at hi
  | cons a t =>
      cases t with
      | nil =>
          simp only [List.mem_singleton] at hi hj
          exact absurd (hi.trans hj.symm) hne
      | cons b t2 => simp

/-- Claim C1: for every candidate list, duplicate-group list, reported
total and tolerance at least 0, the selection returned by `ilp_reconcile`
contains at most one id from each duplicate group. -/
theorem claim_C1_duplicate_group_exclusion (cands : List Candidate)
    (target : Option ℚ) (groups : List (List ℤ)) (tol : ℚ)
    (_htol : 0 ≤ tol) (g : List ℤ) (hg : g ∈ groups) (i j : ℤ)
    (hi : i ∈ (ilp_reconcile cands target groups tol).selected_ids)
    (hj : j ∈ (ilp_reconcile cands target groups tol).selected_ids)
    (hig : i ∈ g) (hjg : j ∈ g) : i = j := by
  by_contra hne
  rw [ilp_reconcile.eq_def] at hi hj
  by_cases hempty : cands.isEmpty
  · rw [if_pos hempty] at hi
    simp at hi
  rw [if_neg hempty] at hi hj
  by_cases hvalid : (cands.filter (fun c => c.amount.isSome)).isEmpty
  · rw [if_pos hvalid] at hi
    simp at hi
  rw [if_neg hvalid] at hi hj
  cases hsolve : solveILP (cands.filter (fun c => c.amount.isSome)) target
      groups tol with
  | none =>
      rw [hsolve] at hi
      simp at hi
  | some S =>
      rw [hsolve] at hi hj
      simp only [List.mem_map, List.mem_filter, decide_eq_true_eq] at hi hj
      obtain ⟨ci, ⟨hci_mem, hci_S⟩, hci_id⟩ := hi
      obtain ⟨cj, ⟨hcj_mem, hcj_S⟩, hcj_id⟩ := hj
      have hfeas : feasibleB (cands.filter (fun c => c.amount.isSome)) target
          groups tol S = true := by
        have hmem := pickBest_mem _ _ S hsolve
        exact (List.mem_filter.mp hmem).2
      rw [feasibleB.eq_def, Bool.and_eq_true, List.all_eq_true] at hfeas
      have hglen := hfeas.2 g hg
      rw [decide_eq_true_eq] at hglen
      have hpi : i ∈ g.filter
          (fun k => decide (k ∈ (cands.filter (fun c => c.amount.isSome)).map
            (fun c => c.id) ∧ k ∈ S)) := by
        rw [List.mem_filter, decide_eq_true_eq]
        refine ⟨hig, ?_, hci_id ▸ hci_S⟩
        exact List.mem_map.mpr ⟨ci, List.mem_filter.mpr ⟨hci_mem.1, hci_mem.2⟩, hci_id⟩
      have hpj : j ∈ g.filter
          (fun k => decide (k ∈ (cands.filter (fun c => c.amount.isSome)).map
            (fun c => c.id) ∧ k ∈ S)) := by
        rw [List.mem_filter, decide_eq_true_eq]
        refine ⟨hjg, ?_, hcj_id ▸ hcj_S⟩
        exact List.mem_map.mpr ⟨cj, List.mem_filter.mpr ⟨hcj_mem.1, hcj_mem.2⟩, hcj_id⟩
      exact absurd hglen (by
        have := two_le_length_of_mem_ne hpi hpj hne
        omega)

/-- Claim C2: the three outcome classifications of `ilp_reconcile` are
returned values, never exceptions: empty input gives `ok` with empty
selection and zero total and deviation; a non-empty input in which no
candidate carries an amount gives `no_valid_amounts` with the absolute
target (0 without a target) as deviation; and when the solver finds no
feasible assignment the result is `infeasible` with empty selection, zero
total, and the absolute target as deviation. -/
theorem claim_C2_status_outcomes :
    (∀ (target : Option ℚ) (groups : List (List ℤ)) (tol : ℚ),
      ilp_reconcile [] target groups tol = ⟨[], 0, 0, "ok"⟩) ∧
    (∀ (cands : List Candidate) (target : Option ℚ) (groups : List (List ℤ))
      (tol : ℚ), cands ≠ [] → (∀ c ∈ cands, c.amount = none) →
      ilp_reconcile cands target groups tol =
        ⟨[], 0, (match target with | none => 0 | some t => qabs t),
          "no_valid_amounts"⟩) ∧
    (∀ (cands : List Candidate) (target : Option ℚ) (groups : List (List ℤ))
      (tol : ℚ), cands.filter (fun c => c.amount.isSome) ≠ [] →
      solveILP (cands.filter (fun c => c.amount.isSome)) target groups tol =
        none →
      ilp_reconcile cands target groups tol =
        ⟨[], 0, (match target with | none => 0 | some t => qabs t),
          "infeasible"⟩) := by
  refine ⟨?_, ?_, ?_⟩
  · intro target groups tol
    rfl
  · intro cands target groups tol hne hnone
    rw [ilp_reconcile.eq_def]
    rw [if_neg (by simpa using hne)]
    rw [if_pos ?_]
    have : cands.filter (fun c => c.amount.isSome) = [] := by
      rw [List.filter_eq_nil_iff]
      intro c hc
      simp [hnone c hc]
    rw [this]
    rfl
  · intro cands target groups tol hvalid hsolve
    have hne : ¬cands.isEmpty = true := by
      intro h
      rw [List.isEmpty_iff] at h
      subst h
      simp at hvalid
    rw [ilp_reconcile.eq_def, if_neg hne,
      if_neg (by simpa using hvalid), hsolve]

/-- A valid candidate for the reconcile witnesses. -/
def recCandA : Candidate := ⟨1, 1, none, [], "item a", some 100, 90, none⟩

/-- A second valid candidate, duplicate of the first by id group. -/
def recCandB : Candidate := ⟨2, 1, none, [], "item a", some 100, 80, none⟩

/-- An amount-less candidate. -/
def recCandNone : Candidate := ⟨3, 1, none, [], "item c", none, 50, none⟩

/-- Witness for C2: the three branches at concrete inputs — empty input,
one amount-less candidate with target 5, and one candidate of amount 100
against target 500 under tolerance 1 (no subset is within tolerance). -/
theorem claim_C2_witness :
    ilp_reconcile [] none [] 0 = ⟨[], 0, 0, "ok"⟩ ∧
    ilp_reconcile [recCandNone] (some 5) [] 1 =
      ⟨[], 0, qabs 5, "no_valid_amounts"⟩ ∧
    ilp_reconcile [recCandA] (some 500) [] 1 =
      ⟨[], 0, qabs 500, "infeasible"⟩ := by
  refine ⟨claim_C2_status_outcomes.1 none [] 0, ?_, ?_⟩
  · exact claim_C2_status_outcomes.2.1 [recCandNone] (some 5) [] 1
      (by simp) (by intro c hc; simp only [List.mem_singleton] at hc; subst hc; rfl)
  · refine claim_C2_status_outcomes.2.2 [recCandA] (some 500) [] 1
      (by simp [recCandA]) ?_
    have hfilter : [recCandA].filter (fun c => c.amount.isSome) = [recCandA] := by
      simp [recCandA]
    rw [hfilter, solveILP]
    have hids : dedupIds ([recCandA].map (fun c => c.id)) = [1] := by
      simp [dedupIds, recCandA]
    rw [hids]
    have hsub : subsetsOf [1] = [[], [1]] := by
      simp [subsetsOf]
    rw [hsub]
    have hf1 : feasibleB [recCandA] (some 500) [] 1 [] = false := by
      simp only [feasibleB, selTotal, recCandA]
      norm_num [qabs]
    have hf2 : feasibleB [recCandA] (some 500) [] 1 [1] = false := by
      simp only [feasibleB, selTotal, recCandA]
      norm_num [qabs]
    simp [List.filter_cons, hf1, hf2, pickBest]

theorem recSolve_eval :
    solveILP [recCandA, recCandB] none [[1, 2]] 0 = some [1] := by
  rw [solveILP]
  have hids : dedupIds ([recCandA, recCandB].map (fun c => c.id)) = [1, 2] := by
    simp [dedupIds, recCandA, recCandB]
  rw [hids]
  have hsub : subsetsOf [1, 2] = [[], [2], [1], [1, 2]] := by
    simp [subsetsOf]
  rw [hsub]
  have hf0 : feasibleB [recCandA, recCandB] none [[1, 2]] 0 [] = true := by
    simp [feasibleB, recCandA, recCandB]
  have hf2 : feasibleB [recCandA, recCandB] none [[1, 2]] 0 [2] = true := by
    simp [feasibleB, recCandA, recCandB]
  have hf1 : feasibleB [recCandA, recCandB] none [[1, 2]] 0 [1] = true := by
    simp [feasibleB, recCandA, recCandB]
  have hf12 : feasibleB [recCandA, recCandB] none [[1, 2]] 0 [1, 2] = false := by
    simp [feasibleB, recCandA, recCandB]
  rw [show List.filter (feasibleB [recCandA, recCandB] none [[1, 2]] 0)
      [[], [2], [1], [1, 2]] = [[], [2], [1]] by
    simp [List.filter_cons, hf0, hf2, hf1, hf12]]
  have ho0 : objective [recCandA, recCandB] none [] = 0 := by
    simp [objective, confTotal, recCandA, recCandB]
  have ho2 : objective [recCandA, recCandB] none [2] = 80 := by
    simp [objective, confTotal, recCandA, recCandB]
  have ho1 : objective [recCandA, recCandB] none [1] = 90 := by
    simp [objective, confTotal, recCandA, recCandB]
  rw [pickBest, pickBest, pickBest, pickBest]
  simp only [ho0, ho2, ho1]
  norm_num
  rw [ho1]
  norm_num

/-- Witness for C1: with candidates 1 and 2 forming one duplicate group,
the returned selection is `[1]`, and the theorem instantiates to the
(trivially satisfied) exclusion for that selection. -/
theorem claim_C1_witness :
    (ilp_reconcile [recCandA, recCandB] none [[1, 2]] 0).selected_ids =
      [1] ∧ (1 : ℤ) = 1 := by
  have hsel : (ilp_reconcile [recCandA, recCandB] none [[1, 2]] 0).selected_ids
      = [1] := by
    rw [ilp_reconcile.eq_def]
    rw [if_neg (by simp)]
    have hfilter : [recCandA, recCandB].filter (fun c => c.amount.isSome) =
        [recCandA, recCandB] := by
      simp [recCandA, recCandB]
    rw [hfilter, if_neg (by simp), recSolve_eval]
    simp [recCandA, recCandB]
  refine ⟨hsel, ?_⟩
  exact claim_C1_duplicate_group_exclusion [recCandA, recCandB] none [[1, 2]]
    0 (le_refl 0) [1, 2] (by simp) 1 1 (by rw [hsel]; simp) (by rw [hsel]; simp)
    (by simp) (by simp)
